import Mathlib

/-!
Verification of the quote Sphinx extension (sphinx/sphinxext/quote.py).

The file embeds the plugin logic shallowly:
  * Python string helpers used by the code (str.split on a separator,
    str.strip, str.join, set.issuperset) are modelled over character lists;
  * the Quote directive body (Quote.run) becomes quoteRun, producing a
    quote node value holding the attribution text and the options;
  * _prep_tags, process_quotes, process_quote_nodes and purge_quotes keep
    their names; the registry is a list of records, the document tree a
    list of sibling nodes; randomness of random.sample is an explicit
    parameter (a shuffled copy of the population), and Python exceptions
    become an Except result.
-/

/-- Model of Python str.split with a one-character separator, over the
character list: no run collapsing, and the empty string yields a single
empty component. -/
def splitChars (sep : Char) : List Char → List (List Char)
  | [] => [[]]
  | c :: rest =>
    let r := splitChars sep rest
    if c = sep then [] :: r
    else
      match r with
      | [] => [[c]]
      | h :: t => (c :: h) :: t

/-- Python s.split(sep) for a one-character separator. -/
def pySplit (s : String) (sep : Char) : List String :=
  (splitChars sep s.data).map (fun cs => String.mk cs)

/-- Python s.strip(): drop whitespace from both ends. -/
def pyStrip (s : String) : String :=
  String.mk (((s.data.dropWhile Char.isWhitespace).reverse.dropWhile
    Char.isWhitespace).reverse)

/-- Python sep.join(parts) (quote.py line 96 uses a newline separator). -/
def pyJoin (sep : String) : List String → String
  | [] => ""
  | [s] => s
  | s :: rest => s ++ sep ++ pyJoin sep rest

/-- Python set.issuperset(a, b): every element of b is an element of a
(quote.py line 198). -/
def issuperset (a b : Finset String) : Bool :=
  decide (∀ x ∈ b, x ∈ a)

/-- Embedding of _prep_tags (quote.py lines 59-63): the tags option
string (defaulting to the empty string when absent) is split on commas,
each component stripped, and the results collected into a set. -/
def _prep_tags (tags : Option String) : Finset String :=
  ((pySplit (tags.getD "") ',').map pyStrip).toFinset

/-- Raw options of a quote directive, all optional strings
(Quote.option_spec, quote.py lines 74-80). -/
structure QuoteDirectiveOptions where
  author : Option String
  affiliation : Option String
  date : Option String
  group : Option String
  source : Option String
  tags : Option String
deriving DecidableEq

/-- Options stored on a produced quote node: same fields, with tags
normalised to a set by _prep_tags (quote.py line 118). -/
structure EntryOptions where
  author : Option String
  affiliation : Option String
  date : Option String
  group : Option String
  source : Option String
  tags : Finset String
deriving DecidableEq

/-- A produced quote node: body text, the text content of the
attribution line, the stored options and the source line. -/
structure QuoteNode where
  text : String
  attribution : String
  options : EntryOptions
  line : Nat
deriving DecidableEq

/-- Concatenation of the text of a list of inline nodes. -/
def concatStrings : List String → String
  | [] => ""
  | s :: rest => s ++ concatStrings rest

/-- In-place formatting applied by Quote.run before building the
attribution (quote.py lines 107-110): the date is wrapped in square
brackets and the source gains a "Source: " head. -/
def formatOptions (o : QuoteDirectiveOptions) : QuoteDirectiveOptions :=
  { o with
    date := o.date.map (fun d => "[" ++ d ++ "]")
    source := o.source.map (fun s => "Source: " ++ s) }

/-- Inline parts appended to the attribution, in the fixed element order
author, date, affiliation, source, each present option prefixed by two
spaces (quote.py lines 111-113). -/
def attributionParts (o : QuoteDirectiveOptions) : List String :=
  ([o.author, o.date, o.affiliation, o.source]).filterMap
    (fun e => e.map (fun v => "  " ++ v))

/-- Embedding of Quote.run (quote.py lines 82-120): formats date and
source, builds the attribution text (the attribution node text starts
with two dashes, then the inline parts), joins the content lines, and
stores the options with tags normalised by _prep_tags. -/
def quoteRun (o : QuoteDirectiveOptions) (content : List String)
    (lineno : Nat) : QuoteNode :=
  let fo := formatOptions o
  { text := pyJoin "\n" content
    attribution := "--" ++ concatStrings (attributionParts fo)
    options :=
      { author := fo.author
        affiliation := fo.affiliation
        date := fo.date
        group := fo.group
        source := fo.source
        tags := _prep_tags fo.tags }
    line := lineno }

/-- The predicate that a string occurs verbatim inside another. -/
def containsStr (hay needle : String) : Prop :=
  ∃ pre post, hay = pre ++ needle ++ post

/-- A sibling node of the document tree, as far as process_quotes looks
at it: an anchor target, a quote node, or anything else. Distinct id
fields let distinct sibling objects be modelled by distinct values. -/
inductive DocNode where
  | target (tid : Nat)
  | quote (q : QuoteNode)
  | other (oid : Nat)
deriving DecidableEq

/-- Whether a node is an anchor target (the isinstance check of
quote.py line 136). -/
def DocNode.isTarget : DocNode → Bool
  | .target _ => true
  | _ => false

/-- Whether a node is a quote node (the traversal filter of
quote.py line 133). -/
def DocNode.isQuote : DocNode → Bool
  | .quote _ => true
  | _ => false

/-- A registry record appended by process_quotes
(quote.py lines 140-145). -/
structure QuoteInfo where
  docname : String
  lineno : Nat
  quote : QuoteNode
  target : Option DocNode
deriving DecidableEq

/-- Python list indexing with negative-index wrap-around: a negative
index counts from the end, and an index out of range on either side is
an IndexError, modelled as none. -/
def pyGetItem {α : Type} (l : List α) (i : Int) : Option α :=
  let j : Int := if i < 0 then (l.length : Int) + i else i
  if j < 0 then none else l[j.toNat]?

/-- Embedding of the anchor lookup of process_quotes (quote.py lines
134-139): fetch the element one position before the first index of the
node in its parent; an IndexError, or a raised one when that element is
not a target, is caught and yields none. -/
def lookupTarget (parent : List DocNode) (node : DocNode) : Option DocNode :=
  match pyGetItem parent ((List.indexOf node parent : Int) - 1) with
  | none => none
  | some t => if t.isTarget then some t else none

/-- Embedding of process_quotes (quote.py lines 124-145): for every
quote node of the document, in order, append one record holding the
document name, the node line, the node and the anchor lookup result. -/
def process_quotes (docname : String) (doctree : List DocNode)
    (registry : List QuoteInfo) : List QuoteInfo :=
  registry ++ doctree.filterMap (fun n =>
    match n with
    | DocNode.quote q =>
        some { docname := docname
               lineno := q.line
               quote := q
               target := lookupTarget doctree (DocNode.quote q) }
    | _ => none)

/-- Options of a quotes selector node after Quotes.run: the tags option,
when present, has been parsed into a set (quote.py lines 169-170). -/
structure QuotesOptions where
  random : Option Nat
  group : Option String
  tags : Option (Finset String)
  sections : Option String
deriving DecidableEq

/-- Embedding of Quotes.run (quote.py lines 164-173): the options are
stored on the produced selector node, with _prep_tags applied only when
a tags option is present. -/
def quotesRun (random : Option Nat) (group : Option String)
    (rawTags : Option String) (sections : Option String) : QuotesOptions :=
  { random := random
    group := group
    sections := sections
    tags := rawTags.map (fun s => _prep_tags (some s)) }

/-- The tag filter closure of quote.py lines 197-199: the candidate
tag set must be a superset of the requested tags. -/
def tagFilter (ltags : Finset String) (quote : QuoteNode) : Bool :=
  issuperset quote.options.tags ltags

/-- The group filter closure of quote.py lines 203-205: the candidate
group option, defaulting to the empty string, must equal the requested
group. -/
def groupFilter (g : String) (quote : QuoteNode) : Bool :=
  quote.options.group.getD "" == g

/-- The filter list built by process_quote_nodes (quote.py lines
194-205): a tag filter when a tags option is present, then a group
filter when a group option is present. -/
def buildFilters (loptions : QuotesOptions) : List (QuoteNode → Bool) :=
  (match loptions.tags with
   | some ltags => [tagFilter ltags]
   | none => []) ++
  (match loptions.group with
   | some g => [groupFilter g]
   | none => [])

/-- The candidate test of quote.py lines 209-211: reduce of Boolean
conjunction over the filter results, starting from True. -/
def passesFilters (filters : List (QuoteNode → Bool)) (quote : QuoteNode) :
    Bool :=
  (filters.map (fun f => f quote)).foldl (fun a b => a && b) true

/-- The collection loop of quote.py lines 207-215: walk the registry in
order and keep the quote node of every record passing all filters. -/
def selectQuotes (loptions : QuotesOptions) (registry : List QuoteInfo) :
    List QuoteNode :=
  registry.filterMap (fun qi =>
    if passesFilters (buildFilters loptions) qi.quote then some qi.quote
    else none)

/-- The Python exceptions process_quote_nodes can raise. -/
inductive PyErr where
  | valueError
  | notImplementedError
deriving DecidableEq

/-- Model of random.sample(population, k) (quote.py line 223): a
ValueError when k exceeds the population size, else the first k entries
of the internal random reordering of the population, which is passed in
explicitly as the shuffled argument. -/
def sample {α : Type} (population : List α) (k : Nat)
    (shuffled : List α) : Except PyErr (List α) :=
  if population.length < k then Except.error PyErr.valueError
  else Except.ok (shuffled.take k)

/-- Python truthiness of an optional integer (quote.py line 221). -/
def truthyNat : Option Nat → Bool
  | none => false
  | some n => n != 0

/-- Python truthiness of an optional string (quote.py line 227). -/
def truthyStr : Option String → Bool
  | none => false
  | some s => s != ""

/-- Embedding of process_quote_nodes for one quotes selector node
(quote.py lines 188-241): filter the registry, take a random sample
when a random count is requested (the randomness being the shuffled
argument), then fail on a truthy sections option; the result replaces
the selector node. -/
def process_quote_nodes (loptions : QuotesOptions)
    (registry : List QuoteInfo) (shuffled : List QuoteNode) :
    Except PyErr (List QuoteNode) :=
  let content := selectQuotes loptions registry
  let sampled :=
    if truthyNat loptions.random then
      sample content (loptions.random.getD 0) shuffled
    else Except.ok content
  match sampled with
  | Except.error e => Except.error e
  | Except.ok content =>
      if truthyStr loptions.sections then
        Except.error PyErr.notImplementedError
      else Except.ok content

/-- Embedding of purge_quotes (quote.py lines 245-250): keep exactly
the registry records whose document name differs from the purged one. -/
def purge_quotes (env : List QuoteInfo) (docname : String) :
    List QuoteInfo :=
  env.filter (fun quote => quote.docname != docname)

/-- Anchor lookup as process_quotes actually behaves on a node at
position i of its parent: the cyclically preceding sibling (position
i - 1, wrapping from the first position to the last) when that sibling
is a target, else none. -/
def cyclicPrevTarget (parent : List DocNode) (i : Nat) : Option DocNode :=
  match parent[(i + parent.length - 1) % parent.length]? with
  | some p => if p.isTarget then some p else none
  | none => none

theorem foldl_and_eq (l : List Bool) (acc : Bool) :
    l.foldl (fun a b => a && b) acc = (acc && l.all id) := by
  induction l generalizing acc with
  | nil => simp
  | cons b t ih => simp [List.foldl_cons, List.all_cons, ih, Bool.and_assoc]

theorem passesFilters_eq_all (fs : List (QuoteNode → Bool)) (q : QuoteNode) :
    passesFilters fs q = fs.all (fun f => f q) := by
  simp only [passesFilters, foldl_and_eq, Bool.true_and]
  induction fs with
  | nil => rfl
  | cons f t ih => simp [ih]

theorem filterMap_if_eq_filter_map {α β : Type} (p : α → Bool) (g : α → β)
    (l : List α) :
    (l.filterMap (fun x => if p x then some (g x) else none))
      = (l.filter p).map g := by
  induction l with
  | nil => rfl
  | cons a t ih =>
    by_cases h : p a <;> simp [List.filterMap_cons, List.filter_cons, h, ih]

/-- C1: the tag filter built by process_quote_nodes passes a candidate
exactly when the candidate tag set is a superset of the requested tag
set, that is when the requested set is contained in the candidate set;
and whenever the selector options carry a parsed tag set, that very
filter is among the built filters. -/
theorem tag_filter_superset_iff (T : Finset String) (q : QuoteNode) :
    (tagFilter T q = true ↔ T ⊆ q.options.tags) ∧
    (∀ r g sec, tagFilter T ∈ buildFilters
      { random := r, group := g, tags := some T, sections := sec }) := by
  constructor
  · simp [tagFilter, issuperset, Finset.subset_iff]
  · intro r g sec
    cases g <;> simp [buildFilters]

/-- C2: the group filter built by process_quote_nodes passes a candidate
exactly when the candidate group option equals the requested group
string; a candidate with no group option matches exactly the empty
requested group; and whenever the selector options carry a group, that
very filter is among the built filters. -/
theorem group_filter_exact_match (G : String) (q : QuoteNode) :
    (groupFilter G q = true ↔
      (match q.options.group with
       | some g => g = G
       | none => G = "")) ∧
    (∀ r t sec, groupFilter G ∈ buildFilters
      { random := r, group := some G, tags := t, sections := sec }) := by
  constructor
  · cases hg : q.options.group with
    | none =>
      simp only [groupFilter, hg, Option.getD_none, beq_iff_eq]
      exact eq_comm
    | some g =>
      simp only [groupFilter, hg, Option.getD_some, beq_iff_eq]
  · intro r t sec
    cases t <;> simp [buildFilters]

/-- C4: purge_quotes removes exactly the registry records whose document
name equals the purged one: the result is a sublist of the registry
(relative order of survivors preserved, survivors unchanged), records of
the purged document have multiplicity zero in it, and every other record
keeps its multiplicity. -/
theorem purge_quotes_exact (registry : List QuoteInfo) (d : String) :
    (purge_quotes registry d).Sublist registry ∧
    (∀ q : QuoteInfo, q.docname = d →
      List.count q (purge_quotes registry d) = 0) ∧
    (∀ q : QuoteInfo, q.docname ≠ d →
      List.count q (purge_quotes registry d) = List.count q registry) := by
  refine ⟨List.filter_sublist registry, ?_, ?_⟩
  · intro q hq
    rw [List.count_eq_zero]
    intro hmem
    have := List.of_mem_filter hmem
    simp [hq] at this
  · intro q hq
    exact List.count_filter (by simp [hq])

/-- C7: _prep_tags replaces the tags option by the set of
comma-separated, whitespace-stripped components of the option string
(defaulting to the empty string when the option is absent); an absent or
empty option therefore yields the singleton set of the empty string,
which is not the empty set; and Quote.run stores exactly this
normalisation on every produced quote node. -/
theorem prep_tags_normalisation (s : Option String) (x : String)
    (o : QuoteDirectiveOptions) (content : List String) (lineno : Nat) :
    (x ∈ _prep_tags s ↔
      ∃ part ∈ pySplit (s.getD "") ',', pyStrip part = x) ∧
    (_prep_tags none = {""}) ∧
    (_prep_tags (some "") = {""}) ∧
    (({""} : Finset String) ≠ (∅ : Finset String)) ∧
    ((quoteRun o content lineno).options.tags = _prep_tags o.tags) := by
  refine ⟨?_, by decide, by decide, by decide, rfl⟩
  simp [_prep_tags, List.mem_toFinset, List.mem_map]

/-- Directive options carrying only a tags string, for concrete runs. -/
def exampleOptions (tagsStr : String) : QuoteDirectiveOptions :=
  { author := none, affiliation := none, date := none, group := none,
    source := none, tags := some tagsStr }

/-- A concrete registry record built end to end through quoteRun. -/
def exampleEntry (docname : String) (tagsStr : String) (lineno : Nat) :
    QuoteInfo :=
  { docname := docname, lineno := lineno,
    quote := quoteRun (exampleOptions tagsStr) ["text"] lineno,
    target := none }

/-- Three registry records with tag sets a b, b, and a b c. -/
def exampleRegistry : List QuoteInfo :=
  [exampleEntry "doc" "a, b" 1, exampleEntry "doc" "b" 2,
   exampleEntry "doc" "a, b, c" 3]

/-- A selector requiring tags a and b, built through quotesRun. -/
def exampleSelector : QuotesOptions := quotesRun none none (some "a, b") none

/-- A selector with no option at all, built through quotesRun. -/
def emptySelector : QuotesOptions := quotesRun none none none none

/-- C3: the collection loop keeps exactly the registry records on which
every built filter evaluates to true (the reduce over Boolean
conjunction equals the conjunction of all predicates), in registry
order (the selection is a sublist of the registry quotes); with no
filter option every record is selected; and on the concrete registry
with tag sets a b, b, a b c and a selector requiring tags a b the
selection is exactly the first and third quotes in that order. -/
theorem select_conjunction_order (lopts : QuotesOptions)
    (registry : List QuoteInfo) :
    (selectQuotes lopts registry
      = (registry.filter
          (fun qi => (buildFilters lopts).all (fun f => f qi.quote))).map
          (fun qi => qi.quote)) ∧
    (selectQuotes lopts registry).Sublist (registry.map (fun qi => qi.quote)) ∧
    (selectQuotes emptySelector registry = registry.map (fun qi => qi.quote)) ∧
    (selectQuotes exampleSelector exampleRegistry
      = [(exampleEntry "doc" "a, b" 1).quote,
         (exampleEntry "doc" "a, b, c" 3).quote]) := by
  have hmain : ∀ lo : QuotesOptions, ∀ reg : List QuoteInfo,
      selectQuotes lo reg
        = (reg.filter (fun qi => (buildFilters lo).all (fun f => f qi.quote))).map
            (fun qi => qi.quote) := by
    intro lo reg
    unfold selectQuotes
    rw [show (fun qi : QuoteInfo =>
          if passesFilters (buildFilters lo) qi.quote then some qi.quote
          else none)
        = (fun qi : QuoteInfo =>
          if (buildFilters lo).all (fun f => f qi.quote) then some qi.quote
          else none) from funext (fun qi => by rw [passesFilters_eq_all])]
    exact filterMap_if_eq_filter_map _ _ reg
  refine ⟨hmain lopts registry, ?_, ?_, by decide⟩
  · rw [hmain]
    exact List.Sublist.map _ (List.filter_sublist registry)
  · rw [hmain]
    simp [buildFilters, emptySelector, quotesRun]

/-- C6: when the requested random count exceeds the number of filtered
records, process_quote_nodes fails with the unguarded ValueError of
random.sample, propagated as the result of the callback. -/
theorem random_overflow_fatal (lopts : QuotesOptions)
    (registry : List QuoteInfo) (shuffled : List QuoteNode) (k : Nat)
    (hk : lopts.random = some k)
    (hgt : (selectQuotes lopts registry).length < k) :
    process_quote_nodes lopts registry shuffled
      = Except.error PyErr.valueError := by
  have hk0 : k ≠ 0 := by omega
  simp [process_quote_nodes, hk, truthyNat, hk0, sample, hgt]

/-- Witness for C6 at a concrete input: one random quote requested from
an empty registry. -/
theorem random_overflow_fatal_witness :
    process_quote_nodes (quotesRun (some 1) none none none) [] []
      = Except.error PyErr.valueError :=
  random_overflow_fatal _ _ _ 1 rfl (by decide)

/-- C9: a truthy sections option makes process_quote_nodes fail with the
explicit NotImplementedError, provided the earlier sampling step did not
already fail. -/
theorem sections_not_implemented_fatal (lopts : QuotesOptions)
    (registry : List QuoteInfo) (shuffled : List QuoteNode) (s : String)
    (hs : lopts.sections = some s) (hne : s ≠ "")
    (hok : truthyNat lopts.random = false ∨
      lopts.random.getD 0 ≤ (selectQuotes lopts registry).length) :
    process_quote_nodes lopts registry shuffled
      = Except.error PyErr.notImplementedError := by
  cases htn : truthyNat lopts.random with
  | false => simp [process_quote_nodes, htn, truthyStr, hs, hne]
  | true =>
    rcases hok with h | h
    · rw [htn] at h
      cases h
    · simp [process_quote_nodes, htn, sample, Nat.not_lt.mpr h, truthyStr,
        hs, hne]

/-- Witness for C9 at a concrete input: a selector with a sections
option and no random option, over an empty registry. -/
theorem sections_not_implemented_fatal_witness :
    process_quote_nodes (quotesRun none none none (some "date")) [] []
      = Except.error PyErr.notImplementedError :=
  sections_not_implemented_fatal _ _ _ "date" rfl (by decide) (Or.inl rfl)

/-- C5: with a requested random count k at most the filtered size, the
callback succeeds with a sample of exactly k entries drawn without
replacement from the filtered selection: no entry occurs more often
than in the selection, distinct selections yield duplicate-free
samples, and at the boundary k equal to the filtered size the sample is
a permutation of the whole selection. -/
theorem random_sample_no_replacement (lopts : QuotesOptions)
    (registry : List QuoteInfo) (shuffled : List QuoteNode) (k : Nat)
    (hk : lopts.random = some k) (h0 : 0 < k)
    (hsec : truthyStr lopts.sections = false)
    (hperm : shuffled.Perm (selectQuotes lopts registry))
    (hle : k ≤ (selectQuotes lopts registry).length) :
    ∃ out, process_quote_nodes lopts registry shuffled = Except.ok out
      ∧ out.length = k
      ∧ (∀ q : QuoteNode,
          List.count q out ≤ List.count q (selectQuotes lopts registry))
      ∧ ((selectQuotes lopts registry).Nodup → out.Nodup)
      ∧ (k = (selectQuotes lopts registry).length →
          out.Perm (selectQuotes lopts registry)) := by
  refine ⟨shuffled.take k, ?_, ?_, ?_, ?_, ?_⟩
  · have hk0 : k ≠ 0 := by omega
    simp [process_quote_nodes, hk, truthyNat, hk0, sample,
      Nat.not_lt.mpr hle, hsec]
  · rw [List.length_take]
    exact Nat.min_eq_left (hperm.length_eq ▸ hle)
  · intro q
    exact le_trans (List.Sublist.count_le (List.take_sublist k shuffled) q)
      (le_of_eq (hperm.count_eq q))
  · intro hnd
    exact List.Nodup.sublist (List.take_sublist k shuffled)
      (hperm.nodup_iff.mpr hnd)
  · intro hkn
    have hsl : shuffled.length ≤ k := by
      rw [hperm.length_eq]
      omega
    rw [List.take_of_length_le hsl]
    exact hperm

/-- Witness for C5 at a concrete input: one random quote requested from
a one-record registry, the shuffled order being that same record. -/
theorem random_sample_no_replacement_witness :
    ∃ out, process_quote_nodes (quotesRun (some 1) none none none)
        [exampleEntry "doc" "b" 2] [(exampleEntry "doc" "b" 2).quote]
        = Except.ok out
      ∧ out.length = 1
      ∧ (∀ q : QuoteNode,
          List.count q out ≤ List.count q (selectQuotes
            (quotesRun (some 1) none none none) [exampleEntry "doc" "b" 2]))
      ∧ ((selectQuotes (quotesRun (some 1) none none none)
            [exampleEntry "doc" "b" 2]).Nodup → out.Nodup)
      ∧ (1 = (selectQuotes (quotesRun (some 1) none none none)
            [exampleEntry "doc" "b" 2]).length →
          out.Perm (selectQuotes (quotesRun (some 1) none none none)
            [exampleEntry "doc" "b" 2])) :=
  random_sample_no_replacement _ _ _ 1 rfl (by decide) (by decide)
    (by decide) (by decide)

theorem containsStr_append_left (a : String) {hay needle : String}
    (h : containsStr hay needle) : containsStr (a ++ hay) needle := by
  obtain ⟨pre, post, rfl⟩ := h
  exact ⟨a ++ pre, post, by simp [String.append_assoc]⟩

theorem containsStr_of_mem {s : String} {l : List String} (h : s ∈ l) :
    containsStr (concatStrings l) s := by
  induction l with
  | nil => cases h
  | cons a t ih =>
    rcases List.mem_cons.mp h with rfl | h2
    · exact ⟨"", concatStrings t, by simp [concatStrings, String.append_assoc]⟩
    · exact containsStr_append_left a (ih h2)

theorem containsStr_inner (a b : String) {hay s : String}
    (h : containsStr hay (a ++ s ++ b)) : containsStr hay s := by
  obtain ⟨pre, post, rfl⟩ := h
  exact ⟨pre ++ a, b ++ post, by simp [String.append_assoc]⟩

/-- C8: the attribution text produced by Quote.run contains the date
wrapped in square brackets verbatim whenever a date option was
supplied, and contains the source prefixed by the word Source and a
colon verbatim whenever a source option was supplied. -/
theorem attribution_verbatim (o : QuoteDirectiveOptions)
    (content : List String) (lineno : Nat) :
    (∀ d, o.date = some d →
      containsStr (quoteRun o content lineno).attribution
        ("[" ++ d ++ "]")) ∧
    (∀ s, o.source = some s →
      containsStr (quoteRun o content lineno).attribution
        ("Source: " ++ s)) := by
  constructor
  · intro d hd
    have hmem : ("  " ++ ("[" ++ d ++ "]"))
        ∈ attributionParts (formatOptions o) := by
      apply List.mem_filterMap.mpr
      exact ⟨(formatOptions o).date, by simp [attributionParts],
        by simp [formatOptions, hd]⟩
    have h1 := containsStr_of_mem hmem
    have h2 : containsStr (concatStrings (attributionParts (formatOptions o)))
        ("[" ++ d ++ "]") := by
      apply containsStr_inner "  " ""
      rwa [String.append_empty]
    exact containsStr_append_left "--" h2
  · intro s hs
    have hmem : ("  " ++ ("Source: " ++ s))
        ∈ attributionParts (formatOptions o) := by
      apply List.mem_filterMap.mpr
      exact ⟨(formatOptions o).source, by simp [attributionParts],
        by simp [formatOptions, hs]⟩
    have h1 := containsStr_of_mem hmem
    have h2 : containsStr (concatStrings (attributionParts (formatOptions o)))
        ("Source: " ++ s) := by
      apply containsStr_inner "  " ""
      rwa [String.append_empty]
    exact containsStr_append_left "--" h2

/-- Directive options with a date and a source, for the C8 witness. -/
def witnessOptions : QuoteDirectiveOptions :=
  { author := some "A", affiliation := none, date := some "1990-01-01",
    group := none, source := some "here", tags := none }

/-- Witness for C8 at a concrete input: a quote with a date and a
source option. -/
theorem attribution_verbatim_witness :
    containsStr (quoteRun witnessOptions ["q"] 1).attribution
      ("[" ++ "1990-01-01" ++ "]") ∧
    containsStr (quoteRun witnessOptions ["q"] 1).attribution
      ("Source: " ++ "here") :=
  ⟨(attribution_verbatim witnessOptions ["q"] 1).1 "1990-01-01" rfl,
   (attribution_verbatim witnessOptions ["q"] 1).2 "here" rfl⟩

/-- Directive options with no option set, for the C10 inputs. -/
def plainOptions : QuoteDirectiveOptions :=
  { author := none, affiliation := none, date := none,
    group := none, source := none, tags := none }

/-- A concrete quote node for the C10 inputs. -/
def plainQuote : QuoteNode := quoteRun plainOptions ["q"] 5

/-- A document whose quote node is the first child and whose last child
is a target. -/
def firstChildDoc : List DocNode :=
  [DocNode.quote plainQuote, DocNode.target 7]

/-- C10 counterexample: in a document where the quote node is the first
child (so it has no immediately preceding sibling) and the last child
is a target, the single appended record carries that last target as its
anchor, not none as the claim requires: Python index -1 wraps around to
the end of the sibling list. -/
theorem first_child_anchor_counterexample :
    (process_quotes "doc" firstChildDoc []).map (fun r => r.target)
        = [some (DocNode.target 7)]
    ∧ some (DocNode.target 7) ≠ (none : Option DocNode) := by
  constructor
  · decide
  · decide

theorem filterMap_quote_length (docname : String) (parent : List DocNode)
    (t : List DocNode) :
    (t.filterMap (fun n =>
      match n with
      | DocNode.quote q =>
          some { docname := docname
                 lineno := q.line
                 quote := q
                 target := lookupTarget parent (DocNode.quote q) : QuoteInfo }
      | _ => none)).length = (t.filter DocNode.isQuote).length := by
  induction t with
  | nil => rfl
  | cons a r ih =>
    cases a <;>
      simp [List.filterMap_cons, List.filter_cons, DocNode.isQuote, ih]

theorem indexOf_eq_of_get {l : List DocNode} (hnd : l.Nodup) (i : Nat)
    (h : i < l.length) (q : QuoteNode)
    (hq : l.get ⟨i, h⟩ = DocNode.quote q) :
    List.indexOf (DocNode.quote q) l = i := by
  have hq2 : l[i] = DocNode.quote q := by
    rw [← hq]
    exact (List.get_eq_getElem l ⟨i, h⟩).symm
  have hge := List.indexOf_getElem hnd i h
  rw [hq2] at hge
  exact hge

theorem pyGetItem_natCast {α : Type} (l : List α) (i : Nat) :
    pyGetItem l (i : Int) = l[i]? := by
  have hni : ¬ ((i : Int) < 0) := by omega
  simp only [pyGetItem, if_neg hni, Int.toNat_natCast]

theorem pyGetItem_neg_one {α : Type} (l : List α) (hl : 0 < l.length) :
    pyGetItem l (-1) = l[l.length - 1]? := by
  have h1 : ((-1 : Int) < 0) := by omega
  have h2 : ¬ ((l.length : Int) + -1 < 0) := by omega
  simp only [pyGetItem, if_pos h1, if_neg h2]
  congr 1
  omega

/-- C10 amended: process_quotes appends exactly one record per quote
node and leaves the existing registry untouched; the anchor recorded
for a quote node at position i of a duplicate-free sibling list is the
cyclically preceding sibling (the previous sibling, wrapping from the
first position to the last sibling) when that sibling is a target, and
none otherwise. -/
theorem process_quotes_anchor_amended (docname : String)
    (doctree : List DocNode) (registry : List QuoteInfo)
    (hnd : doctree.Nodup) :
    (∃ tail, process_quotes docname doctree registry = registry ++ tail
      ∧ tail.length = (doctree.filter DocNode.isQuote).length)
    ∧ ∀ i : Nat, ∀ h : i < doctree.length, ∀ q : QuoteNode,
        doctree.get ⟨i, h⟩ = DocNode.quote q →
        lookupTarget doctree (DocNode.quote q) = cyclicPrevTarget doctree i := by
  constructor
  · exact ⟨_, rfl, filterMap_quote_length docname doctree doctree⟩
  · intro i h q hq
    have hidx := indexOf_eq_of_get hnd i h q hq
    have hlen : 0 < doctree.length := Nat.lt_of_le_of_lt (Nat.zero_le i) h
    have key : pyGetItem doctree
          ((List.indexOf (DocNode.quote q) doctree : Int) - 1)
        = doctree[(i + doctree.length - 1) % doctree.length]? := by
      rw [hidx]
      by_cases hi : i = 0
      · subst hi
        rw [(by omega : ((0 : Nat) : Int) - 1 = (-1 : Int)),
          pyGetItem_neg_one doctree hlen]
        congr 1
        rw [Nat.zero_add]
        exact (Nat.mod_eq_of_lt (by omega)).symm
      · rw [(by omega : ((i : Nat) : Int) - 1 = ((i - 1 : Nat) : Int)),
          pyGetItem_natCast]
        congr 1
        have he : i + doctree.length - 1 = (i - 1) + doctree.length := by
          omega
        rw [he, Nat.add_mod_right]
        exact (Nat.mod_eq_of_lt (by omega)).symm
    unfold lookupTarget cyclicPrevTarget
    rw [key]
    cases doctree[(i + doctree.length - 1) % doctree.length]? <;> rfl

/-- A document with a target, then a quote node, then another node, for
the C10 amended witness. -/
def amendedDoc : List DocNode :=
  [DocNode.target 1, DocNode.quote plainQuote, DocNode.other 2]

/-- Witness for the amended C10 at a concrete input: the quote node at
position 1 of a three-sibling document. -/
theorem process_quotes_anchor_amended_witness :
    (∃ tail, process_quotes "doc" amendedDoc [] = [] ++ tail
      ∧ tail.length = (amendedDoc.filter DocNode.isQuote).length)
    ∧ lookupTarget amendedDoc (DocNode.quote plainQuote)
        = cyclicPrevTarget amendedDoc 1 := by
  have A := process_quotes_anchor_amended "doc" amendedDoc [] (by decide)
  exact ⟨A.1, A.2 1 (by decide) plainQuote rfl⟩
